import Mathlib

/-!
# Verification of the cryptonews-aggregator core pipeline

A shallow embedding, in Lean 4, of the core logic of the crypto news
aggregator: the date normalizer, categorizer and data merger agents
(`app/agents/date_normalizer.py`, `app/agents/categorizer.py`,
`app/agents/data_merger.py`), the X402 payment middleware
(`app/middleware/x402.py`), the Redis cache client
(`app/cache/redis_client.py`), and the persistence queue actors
(`app/queue/tasks.py`).

Modelling conventions:
* Python `datetime` values are modelled as `Nat` instants; `0` stands for
  `datetime.min`, the oldest representable instant, and the order on `Nat`
  mirrors the total order on comparable datetimes.
* Python dict-shaped feed items are modelled by the structure `Item` whose
  fields are `Option`-valued: `none` models an absent dict key.
* External parsers (`datetime.fromisoformat`, `dateutil.parser.parse`,
  `datetime.fromtimestamp`) and clocks are passed in as an explicit
  environment `DateEnv`; a parser returning `none` models the Python call
  raising, which the source catches.
* `sorted(items, key=..., reverse=descending)` is modelled by a stable
  insertion sort (`sortStable`): CPython's sort is documented stable, and
  with `reverse=True` equal-key elements still retain their original order.
-/

/-- Instants: `0` models `datetime.min` (the oldest possible instant). -/
abbrev Instant := Nat

/-! ## Substring search

Python's `keyword in text` on strings is contiguous-substring containment;
`subOccurs` implements it over character lists. -/

/-- `matchesHere pat hay` holds when `pat` occurs at the very start of `hay`. -/
def matchesHere : List Char → List Char → Bool
  | [], _ => true
  | _ :: _, [] => false
  | p :: ps, h :: hs => p == h && matchesHere ps hs

/-- `subOccurs pat hay`: `pat` occurs contiguously somewhere in `hay`
(Python's `pat in hay` on strings). -/
def subOccurs (pat : List Char) : List Char → Bool
  | [] => matchesHere pat []
  | c :: hs => matchesHere pat (c :: hs) || subOccurs pat hs

/-- String-level substring containment, Python `needle in hay`. -/
def strContainsSub (hay needle : String) : Bool :=
  subOccurs needle.data hay.data

/-! ## Feed items

One structure covers the union of the dict keys the pipeline reads
(news items and tweets); `none` models an absent key. -/

/-- A raw date value as found in a feed item: an already-parsed datetime, a
numeric epoch (int/float), a string, or any other Python value. -/
inductive DateValue where
  | dt (d : Instant)
  | num (n : Int)
  | str (s : String)
  | otherVal
deriving DecidableEq, Repr

/-- A feed item: the dict keys read by the agents, `none` = key absent. -/
structure Item where
  title : Option String := none
  content : Option String := none
  text : Option String := none
  published_at : Option DateValue := none
  created_at : Option DateValue := none
  normalized_date : Option Instant := none
  category : Option String := none
  source : Option String := none
  url : Option String := none
  source_name : Option String := none
  sentiment : Option String := none
  image_url : Option String := none
  username : Option String := none
  author : Option String := none
  like_count : Option Nat := none
  retweet_count : Option Nat := none
  reply_count : Option Nat := none
deriving DecidableEq, Repr

/-! ## Date Normalizer (`app/agents/date_normalizer.py`) -/

/-- The external date machinery `normalize_date` calls into:
`fromtimestamp`/`fromisoformat`/`parse` return `none` when the Python call
raises; `now` is `datetime.utcnow()`. -/
structure DateEnv where
  fromtimestamp : Int → Option Instant
  fromisoformat : String → Option Instant
  parse : String → Option Instant
  now : Instant

/-- `date_value.replace('Z', '+00:00')`: every `'Z'` becomes `"+00:00"`. -/
def zReplaceChars : List Char → List Char
  | [] => []
  | c :: cs =>
    if c == 'Z' then '+' :: '0' :: '0' :: ':' :: '0' :: '0' :: zReplaceChars cs
    else c :: zReplaceChars cs

/-- String-level `Z`-to-`+00:00` replacement. -/
def zReplace (s : String) : String := String.mk (zReplaceChars s.data)

/-- `DateNormalizerAgent.normalize_date`: identity on datetimes, epoch
conversion on numbers, ISO-then-free-form parsing on strings, and the
current instant on any failure; total, mirroring the source's
catch-everything structure. -/
def normalize_date (env : DateEnv) : DateValue → Instant
  | .dt d => d
  | .num n =>
    match env.fromtimestamp n with
    | some d => d
    | none => env.now
  | .str s =>
    match env.fromisoformat (zReplace s) with
    | some d => d
    | none =>
      match env.parse s with
      | some d => d
      | none => env.now
  | .otherVal => env.now

/-- `DateNormalizerAgent.normalize_item`: copy the item and attach
`normalized_date` from `published_at`, else `created_at`, else now. -/
def normalize_item (env : DateEnv) (item : Item) : Item :=
  match item.published_at with
  | some dv => { item with normalized_date := some (normalize_date env dv) }
  | none =>
    match item.created_at with
    | some dv => { item with normalized_date := some (normalize_date env dv) }
    | none => { item with normalized_date := some env.now }

/-- Sort key: `x.get("normalized_date", datetime.min)` (the result type
is written `Nat`, i.e. `Instant`). -/
def sortKey (item : Item) : Nat := item.normalized_date.getD 0

/-- Stable insertion: `stay y x` means `y` must remain in front of the
element `x` being inserted; on `stay y x = false` the new element `x` is
placed in front of `y` (so, original order being `x` before the already
sorted tail, equal-rank elements keep their input order). -/
def insertStable (stay : Item → Item → Bool) (x : Item) : List Item → List Item
  | [] => [x]
  | y :: ys => if stay y x then y :: insertStable stay x ys else x :: y :: ys

/-- Stable insertion sort, the model of CPython's stable `sorted`. -/
def sortStable (stay : Item → Item → Bool) : List Item → List Item
  | [] => []
  | x :: xs => insertStable stay x (sortStable stay xs)

/-- `DateNormalizerAgent.sort_by_date(items, descending)`:
`sorted(items, key=lambda x: x.get("normalized_date", datetime.min),
reverse=descending)`. -/
def sort_by_date (items : List Item) (descending : Bool := true) : List Item :=
  if descending then sortStable (fun y x => sortKey y > sortKey x) items
  else sortStable (fun y x => sortKey y < sortKey x) items

/-! ## Categorizer (`app/agents/categorizer.py`) -/

/-- `CategorizerAgent.CATEGORY_KEYWORDS`, in Python dict insertion order
(the taxonomy order: trends, liquidity, agents, macro_events,
proof_of_work). -/
def CATEGORY_KEYWORDS : List (String × List String) :=
  [ ("trends",
      ["trend", "trending", "viral", "popular", "momentum", "surge",
       "rally", "pump", "moon", "bullish", "bearish", "sentiment"]),
    ("liquidity",
      ["liquidity", "volume", "tvl", "trading volume", "market depth",
       "liquidation", "liquidity pool", "dex", "swap", "exchange"]),
    ("agents",
      ["agent", "ai", "bot", "automation", "virtual", "autonomous",
       "ai agent", "llm", "chatbot", "game", "virtuals"]),
    ("macro_events",
      ["fed", "interest rate", "inflation", "regulation", "sec", "government",
       "policy", "ban", "law", "compliance", "legal", "etf", "institutional",
       "blackrock", "fidelity", "election"]),
    ("proof_of_work",
      ["mining", "miner", "hashrate", "difficulty", "pow", "proof of work",
       "asic", "gpu", "energy", "bitcoin mining", "ethereum mining"]) ]

/-- The taxonomy names in order. -/
def CATEGORY_NAMES : List String := CATEGORY_KEYWORDS.map Prod.fst

/-- Python `str.lower()`, modelled per character (the keyword sets and the
feed text the categorizer compares are ASCII, where this agrees with
Python). -/
def lowerStr (s : String) : String := String.mk (s.data.map Char.toLower)

/-- The text a categorized item is scored on: lower-cased `title`,
`content`, `text` fields, each followed by a space, concatenated. -/
def itemText (item : Item) : String :=
  (match item.title with | some t => lowerStr t ++ " " | none => "") ++
  (match item.content with | some t => lowerStr t ++ " " | none => "") ++
  (match item.text with | some t => lowerStr t ++ " " | none => "")

/-- `category_scores`: per category in taxonomy order, the number of its
keywords occurring as substrings of the item's text. -/
def categoryScores (item : Item) : List (String × Nat) :=
  CATEGORY_KEYWORDS.map fun ck =>
    (ck.1, (ck.2.filter fun kw => strContainsSub (itemText item) kw).length)

/-- `max(category_scores.values())` (over a possibly-empty list, 0 floor). -/
def maxVal (scores : List (String × Nat)) : Nat :=
  scores.foldl (fun m p => Nat.max m p.2) 0

/-- Python's `max(iterable, key=f)` keeps the earliest element on ties:
replace the running best only on a strictly greater score. -/
def pickMax (p : String × Nat) : List (String × Nat) → String × Nat
  | [] => p
  | q :: qs => pickMax (if q.2 > p.2 then q else p) qs

/-- `max(category_scores, key=category_scores.get)`. -/
def maxByKey : List (String × Nat) → String
  | [] => "trends"
  | p :: ps => (pickMax p ps).1

/-- `CategorizerAgent.categorize_item`: the first category (in taxonomy
order) attaining the maximal keyword score, or `"trends"` when every
score is zero. -/
def categorize_item (item : Item) : String :=
  let scores := categoryScores item
  if maxVal scores > 0 then maxByKey scores else "trends"

/-- The in-place mutation `item["category"] = categorize_item(item)`
performed by `categorize_items` on each item. -/
def tagItem (item : Item) : Item :=
  { item with category := some (categorize_item item) }

/-- The empty category buckets, initialised for the five taxonomy names in
taxonomy order. -/
def emptyBuckets : List (String × List Item) :=
  CATEGORY_NAMES.map fun c => (c, [])

/-- `categorized[category].append(item)`: append `x` to the bucket named
`c`. -/
def addToBucket (bs : List (String × List Item)) (c : String) (x : Item) :
    List (String × List Item) :=
  bs.map fun b => if b.1 = c then (b.1, b.2 ++ [x]) else b

/-- One iteration of the `categorize_items` loop: compute the item's
category, set it on the item, and append the item to its bucket. -/
def catStep (acc : List Item × List (String × List Item)) (item : Item) :
    List Item × List (String × List Item) :=
  let c := categorize_item item
  let tagged := { item with category := some c }
  (acc.1 ++ [tagged], addToBucket acc.2 c tagged)

/-- `CategorizerAgent.categorize_items`: iterate over the items, assign
each its category in place, and append it to the matching bucket. The
first component is the (mutated) item sequence, the second the buckets.
In the source the mutation is in place, so the input list and the buckets
alias the same dicts; here both are returned explicitly. -/
def categorize_items (items : List Item) : List Item × List (String × List Item) :=
  items.foldl catStep ([], emptyBuckets)

/-! ## Data Merger (`app/agents/data_merger.py`) -/

/-- The engagement sub-dict of a formatted tweet. -/
structure Engagement where
  likes : Nat
  retweets : Nat
  replies : Nat
deriving DecidableEq, Repr

/-- The compact view `_format_items` projects each item to. The
`published_at` field holds the instant whose `.isoformat()` the source
emits (`none` models the source crashing on a missing
`normalized_date`; in the pipeline the field is always set). -/
structure FormattedItem where
  source : Option String
  published_at : Option Instant
  url : String
  title : Option String := none
  content : Option String := none
  source_name : Option String := none
  sentiment : Option String := none
  image_url : Option String := none
  text : Option String := none
  username : Option String := none
  author : Option String := none
  engagement : Option Engagement := none
deriving DecidableEq, Repr

/-- Python `s[:500]` on a string, as character truncation. -/
def strTake (s : String) (n : Nat) : String := String.mk (s.data.take n)

/-- `DataMergerAgent._format_items` on a single item. -/
def format_item (item : Item) : FormattedItem :=
  let base : FormattedItem :=
    { source := item.source
      published_at := item.normalized_date
      url := item.url.getD "" }
  if item.source = some "cryptonews" then
    { base with
        title := item.title
        content := some (strTake (item.content.getD "") 500)
        source_name := item.source_name
        sentiment := item.sentiment
        image_url := item.image_url }
  else if item.source = some "twitter" then
    { base with
        text := item.text
        username := item.username
        author := item.author
        engagement := some
          { likes := item.like_count.getD 0
            retweets := item.retweet_count.getD 0
            replies := item.reply_count.getD 0 } }
  else base

/-- `DataMergerAgent._format_items`. -/
def format_items (items : List Item) : List FormattedItem :=
  items.map format_item

/-- The merged response built by `merge_feeds`: each category maps to its
(count, formatted first-10) pair, in taxonomy order. -/
structure MergedFeeds where
  total_items : Nat
  news_count : Nat
  tweets_count : Nat
  categories : List (String × Nat × List FormattedItem)
  recent_items : List Item
  timestamp : Instant
deriving Repr

/-- `DataMergerAgent.merge_feeds`: normalize both lists, concatenate news
then tweets, stable-sort descending by date, categorize (mutating each
item in place), and assemble counts, the first-20 recent list and the
per-category buckets truncated to 10 and formatted. Because the source
mutates the sorted items in place before slicing, `recent_items` is the
first 20 of the categorized sequence. -/
def merge_feeds (env : DateEnv) (news_items tweets : List Item) : MergedFeeds :=
  let normalized_news := news_items.map (normalize_item env)
  let normalized_tweets := tweets.map (normalize_item env)
  let all_items := normalized_news ++ normalized_tweets
  let sorted_items := sort_by_date all_items true
  let categorized := categorize_items sorted_items
  { total_items := sorted_items.length
    news_count := normalized_news.length
    tweets_count := normalized_tweets.length
    categories := categorized.2.map fun b => (b.1, b.2.length, format_items (b.2.take 10))
    recent_items := categorized.1.take 20
    timestamp := normalize_date env (.str "now") }

/-- The response of `merge_by_category`. -/
structure CategoryMerge where
  category : String
  total_items : Nat
  news_count : Nat
  tweets_count : Nat
  items : List FormattedItem
  timestamp : Instant
deriving Repr

/-- `DataMergerAgent.merge_by_category`: normalize both lists, filter each
full list to the items whose computed category equals `category`,
concatenate filtered news then filtered tweets, stable-sort descending,
and return the first 50, formatted, with per-source counts. -/
def merge_by_category (env : DateEnv) (category : String)
    (news_items tweets : List Item) : CategoryMerge :=
  let normalized_news := news_items.map (normalize_item env)
  let normalized_tweets := tweets.map (normalize_item env)
  let news_filtered := normalized_news.filter fun i => categorize_item i == category
  let tweets_filtered := normalized_tweets.filter fun i => categorize_item i == category
  let all_items := news_filtered ++ tweets_filtered
  let sorted_items := sort_by_date all_items true
  { category := category
    total_items := sorted_items.length
    news_count := news_filtered.length
    tweets_count := tweets_filtered.length
    items := format_items (sorted_items.take 50)
    timestamp := normalize_date env (.str "now") }

/-! ## X402 payment middleware (`app/middleware/x402.py`) -/

/-- A persisted `PaymentTransaction` row (the columns `dispatch` touches). -/
structure Txn where
  payment_hash : String
  endpoint : String
  verified : Bool
  settled : Bool
deriving DecidableEq, Repr

/-- The external collaborators of one `dispatch` run: the facilitator's
verify and settle answers (`verification.get("verified")`,
`settlement.get("settled")`) and the status code the wrapped handler
(`call_next`) would return. -/
structure PaymentEnv where
  verifyOk : Bool
  handlerStatus : Nat
  settleOk : Bool
deriving Repr

/-- What one `dispatch` run did: the response status, whether `call_next`
ran, how many times `settle_payment` was called, and the transaction
table afterwards. -/
structure DispatchResult where
  status : Nat
  handlerInvoked : Bool
  settleCalls : Nat
  db : List Txn
deriving Repr

/-- `X402PaymentMiddleware.PAID_ENDPOINTS`. -/
def PAID_ENDPOINTS : List String :=
  [ "/markets/trends",
    "/markets/liquidity",
    "/markets/agents",
    "/markets/macro_events",
    "/markets/proof_of_work" ]

/-- `any(request.url.path.startswith(endpoint) for endpoint in
PAID_ENDPOINTS)`. -/
def isPaidEndpoint (path : String) : Bool :=
  PAID_ENDPOINTS.any fun e => matchesHere e.data path.data

/-- Python truthiness of the header value: `if not payment_hash` is taken
when the header is absent or the empty string. -/
def hashTruthy : Option String → Bool
  | none => false
  | some s => !s.isEmpty

/-- `db.query(PaymentTransaction).filter(payment_hash == h).first()` then
`transaction.settled = True; db.commit()`: mark the first row with the
given hash settled; no row, no change. -/
def markSettled (h : String) : List Txn → List Txn
  | [] => []
  | t :: ts =>
    if t.payment_hash = h then { t with settled := true } :: ts
    else t :: markSettled h ts

/-- `X402PaymentMiddleware.dispatch` on a request with path `path` and
`X-Payment-Hash` header `paymentHash`, run against transaction table `db`.
Unpaid endpoints pass straight through; a missing (or falsy) hash is
answered 402 with payment headers; a hash failing verification is
answered 402; a verified hash persists a verified-unsettled transaction,
runs the handler, and on handler status 200 calls settle exactly once,
recording the settlement only when settle succeeded. -/
def dispatch (env : PaymentEnv) (db : List Txn) (path : String)
    (paymentHash : Option String) : DispatchResult :=
  if !isPaidEndpoint path then
    { status := env.handlerStatus, handlerInvoked := true, settleCalls := 0, db := db }
  else if !hashTruthy paymentHash then
    { status := 402, handlerInvoked := false, settleCalls := 0, db := db }
  else
    let h := paymentHash.getD ""
    if !env.verifyOk then
      { status := 402, handlerInvoked := false, settleCalls := 0, db := db }
    else
      let db1 := db ++ [{ payment_hash := h, endpoint := path,
                          verified := true, settled := false }]
      if env.handlerStatus == 200 then
        if env.settleOk then
          { status := env.handlerStatus, handlerInvoked := true,
            settleCalls := 1, db := markSettled h db1 }
        else
          { status := env.handlerStatus, handlerInvoked := true,
            settleCalls := 1, db := db1 }
      else
        { status := env.handlerStatus, handlerInvoked := true,
          settleCalls := 0, db := db1 }

/-! ## Redis cache client (`app/cache/redis_client.py`)

The Redis store is modelled as a map from keys to a value together with
its absolute expiry instant; `setex` stores for `ttl` seconds and a read
at or past the expiry finds nothing. `json.dumps`/`json.loads` form an
exact round trip on the JSON-representable envelopes the service caches,
so the store keeps the value itself and only the expiry is tracked;
`setex` with a zero expire time raises in Redis, which the source catches
and turns into a `False` return with nothing stored. -/

/-- A JSON-representable cached value. -/
inductive JVal where
  | null
  | bool (b : Bool)
  | num (n : Int)
  | str (s : String)
  | arr (xs : List JVal)
  | obj (fields : List (String × JVal))

/-- Cache client state: `connected = false` models `self.client` being
`None`; `defaultTTL` is `settings.REDIS_TTL` (3600 in the source config);
the store maps a key to its value and absolute expiry instant. -/
structure CacheState where
  connected : Bool
  defaultTTL : Nat
  store : String → Option (JVal × Nat)

namespace RedisClient

/-- `RedisClient.get`: `None` when unconnected, the stored (deserialized)
value when the key is live, `None` otherwise. -/
def get (st : CacheState) (now : Nat) (key : String) : Option JVal :=
  if !st.connected then none
  else
    match st.store key with
    | some (v, expiry) => if now < expiry then some v else none
    | none => none

/-- `expire_time = ttl or self.ttl`: a falsy `ttl` — absent or zero —
falls back to the configured default. -/
def expireTime (st : CacheState) (ttl : Option Nat) : Nat :=
  match ttl with
  | some t => if t ≠ 0 then t else st.defaultTTL
  | none => st.defaultTTL

/-- `RedisClient.set`: compute `expire_time`, then `setex`; returns the
new state and the boolean result (`setex` with a zero expire raises,
which the source catches into a `False` return). -/
def set (st : CacheState) (now : Nat) (key : String) (v : JVal)
    (ttl : Option Nat := none) : CacheState × Bool :=
  if !st.connected then (st, false)
  else if expireTime st ttl = 0 then (st, false)
  else
    ({ st with
        store := fun k =>
          if k = key then some (v, now + expireTime st ttl) else st.store k },
     true)

end RedisClient

/-! ## Persistence queue actors (`app/queue/tasks.py`) -/

/-- A signal item as delivered to `save_signal_items` (the dict keys the
actor reads). -/
structure SigItem where
  id : Option String := none
  signal : Option String := none
  sentiment : Option String := none
  sentiment_value : Option Int := none
  timestamp : Option Int := none
  feed_categories : List String := []
  short_context : Option String := none
  long_context : Option String := none
  sources : List String := []
  author : Option String := none
  tokens : List String := []
  tweet_url : Option String := none
  narrative_id : Option String := none
deriving DecidableEq, Repr

/-- The primary key of a stored `signal_items` row: the id supplied by the
item, or the `uuid4` default generated at insert when the item carried
none. Generated keys are drawn fresh, so they never collide with each
other or with supplied ids. -/
inductive SigId where
  | given (s : String)
  | generated (n : Nat)
deriving DecidableEq, Repr

/-- A stored `signal_items` row. -/
structure SigRecord where
  rid : SigId
  item : SigItem
deriving DecidableEq, Repr

/-- `db.query(SignalItem).filter(SignalItem.id == item.get("id")).first()`:
with no id the comparison is `id IS NULL`, which never matches the
non-null primary-key column. -/
def findById (db : List SigRecord) : Option String → Option SigRecord
  | none => none
  | some s => db.find? fun r => r.rid == .given s

/-- One iteration of the `save_signal_items` loop: the duplicate check
queries the session, which is configured with `autoflush=False`
(`database/session.py`), so the query sees only the table as it stood
before the batch — never the rows staged earlier in the same batch. A
new item is staged as a pending insert: under its id when it has one,
under a fresh generated key when it has none. -/
def stageSignalItem (db : List SigRecord) (acc : List SigRecord × Nat)
    (item : SigItem) : List SigRecord × Nat :=
  match findById db item.id with
  | some _ => acc
  | none =>
    match item.id with
    | some s => (acc.1 ++ [{ rid := .given s, item := item }], acc.2)
    | none => (acc.1 ++ [{ rid := .generated acc.2, item := item }], acc.2 + 1)

/-- Whether the pending inserts violate the primary key among themselves
at flush time: two staged rows sharing a key. (A staged given id never
collides with the pre-batch table — staging it required the lookup to
fail there — and generated keys are fresh.) -/
def hasDupKey : List SigRecord → Bool
  | [] => false
  | r :: rs => rs.any (fun x => x.rid == r.rid) || hasDupKey rs

/-- `save_signal_items`: run the loop, staging pending inserts whose
duplicate check sees only the pre-batch table (`autoflush=False`), then
`db.commit()`: a primary-key violation at the commit's flush — the same
given id staged twice in one batch — raises, and the handler rolls the
whole batch back, saving nothing; otherwise every pending row is
appended. `fresh` seeds the generated-key supply. -/
def save_signal_items (db : List SigRecord) (fresh : Nat)
    (items : List SigItem) : List SigRecord × Nat :=
  let staged := items.foldl (stageSignalItem db) ([], fresh)
  if hasDupKey staged.1 then (db, fresh)
  else (db ++ staged.1, staged.2)

/-- A stored `category_feeds` row (the columns `save_category_feed`
touches). -/
structure FeedRow where
  category : String
  items : List SigItem
  item_count : Nat
  last_updated : Nat
deriving DecidableEq, Repr

/-- `db.query(CategoryFeed).filter(category == c)
.order_by(last_updated.desc()).first()`: the index of the row of category
`c` with the greatest `last_updated` (earliest row on ties, a
deterministic rendering of the store's unspecified tie order), paired
with the row. -/
def bestIdx (c : String) : List FeedRow → Option (Nat × FeedRow)
  | [] => none
  | r :: rs =>
    let rest := (bestIdx c rs).map fun p => (p.1 + 1, p.2)
    if r.category == c then
      match rest with
      | some (j, r') =>
        if r'.last_updated > r.last_updated then some (j, r') else some (0, r)
      | none => some (0, r)
    else rest

/-- The fresh snapshot row `save_category_feed` builds. -/
def mkFeedRow (c : String) (items : List SigItem) (now : Nat) : FeedRow :=
  { category := c, items := items, item_count := items.length, last_updated := now }

/-- `save_category_feed`: find the most recent snapshot for the category;
if one exists and is under an hour old, overwrite its items, count and
update time in place, otherwise append a new snapshot row. `now` is
`time.time()`. -/
def save_category_feed (db : List FeedRow) (now : Nat) (c : String)
    (items : List SigItem) : List FeedRow :=
  match bestIdx c db with
  | some (i, r) =>
    if now - r.last_updated < 3600 then db.set i (mkFeedRow c items now)
    else db ++ [mkFeedRow c items now]
  | none => db ++ [mkFeedRow c items now]

/-! ## Auxiliary and spec-side definitions -/

/-- The spec's tie-break rule, written from the spec's words: the first
category, in the order of the given score list (taxonomy order for
`categoryScores`), whose score equals `m`. Used to compare the source's
`max(category_scores, key=category_scores.get)` against the specified
earliest-at-maximal-score rule. -/
def firstWith (m : Nat) : List (String × Nat) → Option String
  | [] => none
  | p :: ps => if p.2 = m then some p.1 else firstWith m ps

/-- Count of stored signal rows whose primary key is the supplied id `s`. -/
def countGiven (db : List SigRecord) (s : String) : Nat :=
  (db.filter fun r => r.rid == .given s).length

/-- Concrete date environment: every external parser fails and the clock
reads 42. -/
def dateEnvW : DateEnv :=
  { fromtimestamp := fun _ => none
    fromisoformat := fun _ => none
    parse := fun _ => none
    now := 42 }

/-- Concrete item whose score vector ties `trends` with `liquidity`. -/
def itemTieA : Item := { title := some "trend liquidity" }

/-- A second item with the same score vector as `itemTieA`. -/
def itemTieB : Item := { text := some "liquidity trend" }

/-- A concrete item carrying no `normalized_date`. -/
def undatedItem : Item := {}

/-- A concrete item dated exactly at the oldest possible instant
(`datetime.min`, e.g. a `published_at` of `"0001-01-01T00:00:00"`). -/
def datedMinItem : Item := { title := some "d", normalized_date := some 0 }

/-- A concrete signal item with no id (its spec-side natural key would be
`url+source`, here `tweet_url`/`sources`). -/
def sigNoId : SigItem :=
  { signal := some "dup", tweet_url := some "https://x.com/p/1", sources := ["twitter"] }

/-- A concrete signal item with a stable id. -/
def sigWithId : SigItem := { id := some "abc123", signal := some "s" }

/-- Concrete cache state: connected, default TTL 3600 (the source
config's `REDIS_TTL` default), empty store. -/
def cacheStateW : CacheState :=
  { connected := true, defaultTTL := 3600, store := fun _ => none }

/-- Concrete payment environment: verification succeeds, the handler
returns 200, settlement fails. -/
def payEnvW : PaymentEnv :=
  { verifyOk := true, handlerStatus := 200, settleOk := false }

/-- Pipeline stage: both input lists normalized, news first then tweets
(step 2 of `merge_feeds`). -/
def normalizedConcat (env : DateEnv) (news_items tweets : List Item) : List Item :=
  news_items.map (normalize_item env) ++ tweets.map (normalize_item env)

/-- Pipeline stage: the global descending stable sort of the normalized
concatenation (step 3 of `merge_feeds`). -/
def globalSorted (env : DateEnv) (news_items tweets : List Item) : List Item :=
  sort_by_date (normalizedConcat env news_items tweets) true

/-- Pipeline stage: the globally sorted items after the categorizer's
in-place category assignment (step 4 of `merge_feeds`). -/
def taggedSorted (env : DateEnv) (news_items tweets : List Item) : List Item :=
  (globalSorted env news_items tweets).map tagItem

/-- The category bucket of `merge_feeds` before truncation: the items of
the global sort whose assigned category is `c`, in global sort order. -/
def bucketOf (env : DateEnv) (news_items tweets : List Item) (c : String) : List Item :=
  (taggedSorted env news_items tweets).filter fun i => i.category == some c

/-- Pipeline stage of `merge_by_category`: one full normalized input list
filtered to the items whose computed category equals `category`. -/
def filteredByCat (env : DateEnv) (category : String) (items : List Item) : List Item :=
  (items.map (normalize_item env)).filter fun i => categorize_item i == category

/-- Pipeline stage of `merge_by_category`: filtered news then filtered
tweets, stable-sorted descending by instant. -/
def catSorted (env : DateEnv) (category : String)
    (news_items tweets : List Item) : List Item :=
  sort_by_date
    (filteredByCat env category news_items ++ filteredByCat env category tweets) true

/-! # Theorems

## C7 — date normalization is total -/

/-- **C7** — Date normalization is total: `normalize_date` is a total
function (the source catches every exception, so it never raises); an
already-canonical instant is returned unchanged; a numeric epoch converts
through `fromtimestamp`; a string converts through ISO parsing (with
`Z` rewritten to the UTC offset `+00:00`) and then the free-form parser;
and on total parse failure — a string neither parser accepts, a
non-date/non-numeric/non-string value, or an epoch `fromtimestamp`
rejects — the current instant is returned. -/
theorem c7_normalize_date_total (env : DateEnv) (v : DateValue) :
    (∀ d, v = .dt d → normalize_date env v = d) ∧
    (∀ n t, v = .num n → env.fromtimestamp n = some t → normalize_date env v = t) ∧
    (∀ n, v = .num n → env.fromtimestamp n = none → normalize_date env v = env.now) ∧
    (∀ s t, v = .str s → env.fromisoformat (zReplace s) = some t →
      normalize_date env v = t) ∧
    (∀ s t, v = .str s → env.fromisoformat (zReplace s) = none →
      env.parse s = some t → normalize_date env v = t) ∧
    (∀ s, v = .str s → env.fromisoformat (zReplace s) = none →
      env.parse s = none → normalize_date env v = env.now) ∧
    (v = .otherVal → normalize_date env v = env.now) := by
  refine ⟨?_, ?_, ?_, ?_, ?_, ?_, ?_⟩ <;> intros <;> subst_eqs <;>
    simp [normalize_date, *]

/-- Witness for C7 at concrete inputs. -/
theorem c7_witness :
    normalize_date dateEnvW (DateValue.str "not a date") = 42 ∧
    normalize_date dateEnvW (DateValue.dt 7) = 7 :=
  ⟨(c7_normalize_date_total dateEnvW (DateValue.str "not a date")).2.2.2.2.2.1
      "not a date" rfl rfl rfl,
   (c7_normalize_date_total dateEnvW (DateValue.dt 7)).1 7 rfl⟩

/-! ## C4 — categorization totality -/

/-- The score list's categories are the taxonomy, in order. -/
theorem scores_fst (item : Item) :
    (categoryScores item).map Prod.fst = CATEGORY_NAMES := by
  simp [categoryScores, CATEGORY_NAMES, List.map_map]

/-- `pickMax` returns an element of the candidate list. -/
theorem pickMax_mem (ps : List (String × Nat)) :
    ∀ p, pickMax p ps ∈ p :: ps := by
  induction ps with
  | nil => intro p; simp [pickMax]
  | cons q qs ih =>
    intro p
    have h := ih (if q.2 > p.2 then q else p)
    rw [List.mem_cons] at h
    simp only [pickMax]
    rcases h with h | h
    · rw [h]
      split <;> simp
    · simp [h]

/-- A score list whose scores are all zero has maximum zero. -/
theorem maxVal_all_zero (scores : List (String × Nat))
    (h : ∀ p ∈ scores, p.2 = 0) : maxVal scores = 0 := by
  induction scores with
  | nil => rfl
  | cons p ps ih =>
    have hp : p.2 = 0 := h p (List.mem_cons_self p ps)
    have hps : maxVal ps = 0 := ih fun q hq => h q (List.mem_cons_of_mem p hq)
    simpa [maxVal, hp] using hps

/-- **C4** — Categorization totality: `categorize_item` always returns
exactly one category, drawn from the fixed 5-name taxonomy, and when
every category's keyword score is zero it returns the default
`"trends"`. -/
theorem c4_categorize_total (item : Item) :
    categorize_item item ∈ CATEGORY_NAMES ∧
    ((∀ p ∈ categoryScores item, p.2 = 0) → categorize_item item = "trends") := by
  constructor
  · have hmem : maxByKey (categoryScores item) ∈ (categoryScores item).map Prod.fst := by
      cases hsc : categoryScores item with
      | nil => simp [categoryScores, CATEGORY_KEYWORDS] at hsc
      | cons p ps =>
        simp only [maxByKey]
        exact List.mem_map_of_mem Prod.fst (pickMax_mem ps p)
    rw [scores_fst] at hmem
    show (if maxVal (categoryScores item) > 0 then maxByKey (categoryScores item)
      else "trends") ∈ CATEGORY_NAMES
    split
    · exact hmem
    · decide
  · intro h
    have h0 : maxVal (categoryScores item) = 0 := maxVal_all_zero _ h
    show (if maxVal (categoryScores item) > 0 then maxByKey (categoryScores item)
      else "trends") = "trends"
    simp [h0]

/-- Witness for C4: a keyword-free item falls to the default category. -/
theorem c4_witness :
    categorize_item { title := some "qwerty zzz" } = "trends" :=
  (c4_categorize_total { title := some "qwerty zzz" }).2 (by decide)

/-! ## C3 — tie-break determinism -/

/-- `pickMax` either keeps its seed or strictly improves on its score. -/
theorem pickMax_eq_or_lt (ps : List (String × Nat)) :
    ∀ p, pickMax p ps = p ∨ p.2 < (pickMax p ps).2 := by
  induction ps with
  | nil => intro p; left; rfl
  | cons q qs ih =>
    intro p
    simp only [pickMax]
    by_cases hq : q.2 > p.2
    · simp only [hq, if_true]
      rcases ih q with h | h
      · right; rw [h]; exact hq
      · right; exact Nat.lt_trans hq h
    · simp only [hq, if_false]
      exact ih p

/-- The score of `pickMax` is the running maximum of all scores. -/
theorem pickMax_snd (ps : List (String × Nat)) :
    ∀ p, (pickMax p ps).2 = List.foldl (fun m q => Nat.max m q.2) p.2 ps := by
  induction ps with
  | nil => intro p; rfl
  | cons q qs ih =>
    intro p
    simp only [pickMax, List.foldl_cons]
    by_cases hq : q.2 > p.2
    · simp only [hq, if_true]
      rw [ih q]
      congr 1
      unfold Nat.max
      omega
    · simp only [hq, if_false]
      rw [ih p]
      congr 1
      unfold Nat.max
      omega

/-- `maxVal` of a nonempty score list is the score of `pickMax`. -/
theorem maxVal_cons (p : String × Nat) (ps : List (String × Nat)) :
    maxVal (p :: ps) = (pickMax p ps).2 := by
  rw [pickMax_snd]
  simp [maxVal, List.foldl_cons]

/-- `pickMax` picks the earliest element attaining the maximal score. -/
theorem pickMax_firstWith (ps : List (String × Nat)) :
    ∀ p, firstWith (pickMax p ps).2 (p :: ps) = some (pickMax p ps).1 := by
  induction ps with
  | nil => intro p; simp [pickMax, firstWith]
  | cons q qs ih =>
    intro p
    simp only [pickMax]
    by_cases hq : q.2 > p.2
    · simp only [hq, if_true]
      have hle : q.2 ≤ (pickMax q qs).2 := by
        rcases pickMax_eq_or_lt qs q with h | h
        · rw [h]
        · exact Nat.le_of_lt h
      have hp : ¬ p.2 = (pickMax q qs).2 := by omega
      simp only [firstWith, hp, if_false]
      exact ih q
    · simp only [hq, if_false]
      rcases pickMax_eq_or_lt qs p with h | h
      · rw [h]
        simp [firstWith]
      · have hqle : q.2 ≤ p.2 := Nat.not_lt.mp hq
        have hp : ¬ p.2 = (pickMax p qs).2 := Nat.ne_of_lt h
        have hqne : ¬ q.2 = (pickMax p qs).2 := by omega
        have ihp := ih p
        simp only [firstWith, hp, if_false] at ihp
        simp only [firstWith, hp, hqne, if_false]
        exact ihp

/-- **C3** — Categorization tie-break determinism: whenever some keyword
score is nonzero, the assigned category is the *first* category, in the
fixed taxonomy order `trends, liquidity, agents, macro_events,
proof_of_work`, whose score equals the maximal score (so a strictly
highest score wins, and ties resolve to the earliest category in taxonomy
order); and any two items with identical score vectors receive the same
category. -/
theorem c3_tie_break (item : Item) :
    (0 < maxVal (categoryScores item) →
      firstWith (maxVal (categoryScores item)) (categoryScores item) =
        some (categorize_item item)) ∧
    (∀ other : Item, categoryScores item = categoryScores other →
      categorize_item item = categorize_item other) := by
  constructor
  · intro hpos
    show firstWith (maxVal (categoryScores item)) (categoryScores item) =
      some (if maxVal (categoryScores item) > 0 then maxByKey (categoryScores item)
        else "trends")
    rw [if_pos hpos]
    cases hsc : categoryScores item with
    | nil => simp [categoryScores, CATEGORY_KEYWORDS] at hsc
    | cons p ps =>
      rw [maxVal_cons]
      simp only [maxByKey]
      exact pickMax_firstWith ps p
  · intro other h
    show (if maxVal (categoryScores item) > 0 then maxByKey (categoryScores item)
        else "trends") =
      (if maxVal (categoryScores other) > 0 then maxByKey (categoryScores other)
        else "trends")
    rw [h]

/-- Witness for C3: a concrete `trends`/`liquidity` tie resolves to the
earlier taxonomy entry, and an item with the identical score vector gets
the same category. -/
theorem c3_witness :
    (0 < maxVal (categoryScores itemTieA) ∧
      firstWith (maxVal (categoryScores itemTieA)) (categoryScores itemTieA) =
        some (categorize_item itemTieA)) ∧
    categorize_item itemTieA = categorize_item itemTieB :=
  ⟨⟨by decide, (c3_tie_break itemTieA).1 (by decide)⟩,
   (c3_tie_break itemTieA).2 itemTieB (by decide)⟩

/-! ## C6 — sort stability and missing-date placement -/

/-- Stable insertion is a permutation: it inserts exactly its element. -/
theorem insertStable_perm (stay : Item → Item → Bool) (x : Item) (l : List Item) :
    (insertStable stay x l).Perm (x :: l) := by
  induction l with
  | nil => exact List.Perm.refl _
  | cons y ys ih =>
    simp only [insertStable]
    by_cases hs : stay y x = true
    · rw [if_pos hs]
      exact (ih.cons y).trans (List.Perm.swap x y ys)
    · rw [if_neg hs]

/-- The stable sort permutes its input. -/
theorem sortStable_perm (stay : Item → Item → Bool) (l : List Item) :
    (sortStable stay l).Perm l := by
  induction l with
  | nil => exact List.Perm.refl _
  | cons x xs ih =>
    exact (insertStable_perm stay x (sortStable stay xs)).trans (ih.cons x)

/-- Inserting into the descending sort either places the new element in
front of the same-key class (it is skipped only past strictly greater
keys) or leaves the key class untouched. -/
theorem filter_insertStable (x : Item) (k : Nat) (l : List Item) :
    (insertStable (fun a b => sortKey a > sortKey b) x l).filter
        (fun y => sortKey y == k) =
      if sortKey x = k then x :: l.filter (fun y => sortKey y == k)
      else l.filter (fun y => sortKey y == k) := by
  induction l with
  | nil =>
    by_cases hxk : sortKey x = k
    · rw [if_pos hxk]
      simp only [insertStable, List.filter_nil, List.filter_cons]
      rw [if_pos (by simpa using hxk)]
    · rw [if_neg hxk]
      simp only [insertStable, List.filter_nil, List.filter_cons]
      rw [if_neg (by simpa using hxk)]
  | cons y ys ih =>
    simp only [insertStable]
    by_cases hs : sortKey y > sortKey x
    · rw [if_pos (by exact decide_eq_true hs)]
      by_cases hxk : sortKey x = k
      · have hyk : ¬ sortKey y = k := by
          intro hk
          rw [hxk] at hs
          rw [hk] at hs
          exact lt_irrefl k hs
        rw [if_pos hxk, List.filter_cons, List.filter_cons,
          if_neg (by simpa using hyk), if_neg (by simpa using hyk), ih,
          if_pos hxk]
      · rw [if_neg hxk, List.filter_cons, List.filter_cons, ih, if_neg hxk]
    · rw [if_neg (by simpa using hs)]
      by_cases hxk : sortKey x = k
      · rw [if_pos hxk, List.filter_cons,
          if_pos (by simpa using hxk)]
      · rw [if_neg hxk, List.filter_cons,
          if_neg (by simpa using hxk)]

/-- Stability of the descending sort: each same-key class of the output is
exactly the same-key class of the input, in input order. -/
theorem sort_filter_stable (k : Nat) (l : List Item) :
    (sortStable (fun a b => sortKey a > sortKey b) l).filter
        (fun y => sortKey y == k) =
      l.filter (fun y => sortKey y == k) := by
  induction l with
  | nil => rfl
  | cons x xs ih =>
    simp only [sortStable]
    rw [filter_insertStable]
    by_cases hxk : sortKey x = k
    · rw [if_pos hxk, ih, List.filter_cons, if_pos (by simpa using hxk)]
    · rw [if_neg hxk, ih, List.filter_cons, if_neg (by simpa using hxk)]

/-- Stable insertion preserves descending sortedness. -/
theorem insertStable_pairwise (x : Item) (l : List Item)
    (hl : l.Pairwise (fun a b => sortKey b ≤ sortKey a)) :
    (insertStable (fun a b => sortKey a > sortKey b) x l).Pairwise
      (fun a b => sortKey b ≤ sortKey a) := by
  induction l with
  | nil => simp [insertStable]
  | cons y ys ih =>
    rw [List.pairwise_cons] at hl
    obtain ⟨hy, hys⟩ := hl
    simp only [insertStable]
    by_cases hs : sortKey y > sortKey x
    · rw [if_pos (by exact decide_eq_true hs)]
      rw [List.pairwise_cons]
      refine ⟨?_, ih hys⟩
      intro z hz
      have hz' : z ∈ x :: ys :=
        (insertStable_perm (fun a b => sortKey a > sortKey b) x ys).mem_iff.mp hz
      rcases List.mem_cons.mp hz' with rfl | hz''
      · exact Nat.le_of_lt hs
      · exact hy z hz''
    · rw [if_neg (by simpa using hs)]
      rw [List.pairwise_cons]
      refine ⟨?_, List.pairwise_cons.mpr ⟨hy, hys⟩⟩
      intro z hz
      rcases List.mem_cons.mp hz with rfl | hz'
      · exact Nat.not_lt.mp hs
      · exact Nat.le_trans (hy z hz') (Nat.not_lt.mp hs)

/-- The descending sort produces a descending-by-key list. -/
theorem sortStable_pairwise (l : List Item) :
    (sortStable (fun a b => sortKey a > sortKey b) l).Pairwise
      (fun a b => sortKey b ≤ sortKey a) := by
  induction l with
  | nil => simp [sortStable]
  | cons x xs ih => exact insertStable_pairwise x _ ih

/-- **C6 (amended)** — `sort_by_date` descending is a stable sort keyed by
the normalized date: every same-key class of the output equals the
same-key class of the input in input order (stability); the output is
descending by key; an item lacking a resolvable normalized date is keyed
as the oldest possible instant (`0`, i.e. `datetime.min`); hence once an
undated item appears, everything after it is keyed at that oldest
instant — so undated items come after all dated items whose instant is
strictly newer than the oldest possible one. (As stated, "after *all*
dated items" fails when a dated item's instant *equals* `datetime.min`:
see the counterexample.) -/
theorem c6_sort_by_date (l : List Item) :
    (∀ k, (sort_by_date l true).filter (fun y => sortKey y == k) =
        l.filter (fun y => sortKey y == k)) ∧
    (sort_by_date l true).Pairwise (fun a b => sortKey b ≤ sortKey a) ∧
    (∀ item : Item, item.normalized_date = none → sortKey item = 0) ∧
    (sort_by_date l true).Pairwise
      (fun a b => a.normalized_date = none → sortKey b = 0) := by
  have hunf : sort_by_date l true = sortStable (fun a b => sortKey a > sortKey b) l := rfl
  refine ⟨?_, ?_, ?_, ?_⟩
  · intro k
    rw [hunf]
    exact sort_filter_stable k l
  · rw [hunf]
    exact sortStable_pairwise l
  · intro item h
    simp [sortKey, h]
  · rw [hunf]
    refine List.Pairwise.imp ?_ (sortStable_pairwise l)
    intro a b hab hnone
    have ha : sortKey a = 0 := by simp [sortKey, hnone]
    omega

/-- **C6 counterexample** — the claim's "every item lacking a resolvable
normalized date … appears after all dated items in descending order"
fails: an undated item placed before an item dated exactly at the oldest
possible instant (`datetime.min`) keeps its position in front of that
dated item, because both share the sort key `datetime.min` and the sort
is stable. -/
theorem c6_counterexample :
    undatedItem.normalized_date = none ∧
    datedMinItem.normalized_date = some 0 ∧
    sort_by_date [undatedItem, datedMinItem] true =
      [undatedItem, datedMinItem] := by
  refine ⟨rfl, rfl, ?_⟩
  rfl

/-- Witness for C6 at concrete inputs. -/
theorem c6_witness :
    sortKey undatedItem = 0 ∧
    (sort_by_date [undatedItem, datedMinItem] true).filter
        (fun y => sortKey y == 0) =
      [undatedItem, datedMinItem].filter (fun y => sortKey y == 0) :=
  ⟨(c6_sort_by_date []).2.2.1 undatedItem rfl,
   (c6_sort_by_date [undatedItem, datedMinItem]).1 0⟩

/-! ## C2 — category purity of merge_by_category -/

/-- **C2** — Category purity of `merge_by_category`: for every requested
category and every pair of input lists, the returned items are the
formatted first 50 of the descending sort of the per-list filtered items,
each full normalized list is filtered by computed category *before* any
truncation (the per-source counts and the total count are counts over the
full filtered lists, not over the truncated output), and every item that
reaches the sorted sequence — hence every returned item — has computed
category equal to the requested one. -/
theorem c2_merge_by_category (env : DateEnv) (category : String)
    (news_items tweets : List Item) :
    (merge_by_category env category news_items tweets).items =
      format_items ((catSorted env category news_items tweets).take 50) ∧
    (merge_by_category env category news_items tweets).news_count =
      (filteredByCat env category news_items).length ∧
    (merge_by_category env category news_items tweets).tweets_count =
      (filteredByCat env category tweets).length ∧
    (merge_by_category env category news_items tweets).total_items =
      (filteredByCat env category news_items).length +
        (filteredByCat env category tweets).length ∧
    (catSorted env category news_items tweets).all
      (fun i => categorize_item i == category) = true := by
  refine ⟨rfl, rfl, rfl, ?_, ?_⟩
  · show (catSorted env category news_items tweets).length = _
    rw [show catSorted env category news_items tweets =
        sortStable (fun a b => sortKey a > sortKey b)
          (filteredByCat env category news_items ++
            filteredByCat env category tweets) from rfl,
      (sortStable_perm _ _).length_eq, List.length_append]
  · rw [List.all_eq_true]
    intro i hi
    have hi' : i ∈ filteredByCat env category news_items ++
        filteredByCat env category tweets :=
      (sortStable_perm (fun a b => sortKey a > sortKey b) _).mem_iff.mp hi
    rcases List.mem_append.mp hi' with h | h
    · exact (List.mem_filter.mp h).2
    · exact (List.mem_filter.mp h).2

/-! ## C5 — merge_feeds pipeline shape -/

/-- One `categorize_items` step, spelled out. -/
theorem catStep_eq (acc : List Item × List (String × List Item)) (item : Item) :
    catStep acc item =
      (acc.1 ++ [tagItem item],
       addToBucket acc.2 (categorize_item item) (tagItem item)) := rfl

/-- The tag set by `categorize_items` on an item. -/
theorem tagItem_category (item : Item) :
    (tagItem item).category = some (categorize_item item) := rfl

/-- The `categorize_items` loop, run from any intermediate state: it
appends the tagged items to the accumulator and appends each tagged item
to its bucket in iteration order (so each bucket extends by the filter of
the tagged sequence on its own name). -/
theorem foldl_catStep (items : List Item) :
    ∀ acc bs, items.foldl catStep (acc, bs) =
      (acc ++ items.map tagItem,
       bs.map fun b =>
         (b.1, b.2 ++ (items.map tagItem).filter fun i => i.category == some b.1)) := by
  induction items with
  | nil =>
    intro acc bs
    simp
  | cons item rest ih =>
    intro acc bs
    rw [List.foldl_cons, catStep_eq, ih]
    rw [Prod.ext_iff]
    constructor
    · simp
    · show (addToBucket bs (categorize_item item) (tagItem item)).map _ = _
      rw [addToBucket, List.map_map]
      apply List.map_congr_left
      intro b _
      by_cases hbc : b.1 = categorize_item item
      · simp only [Function.comp_apply]
        rw [if_pos hbc]
        simp only [List.map_cons, List.filter_cons, tagItem_category]
        rw [if_pos (by simp [hbc])]
        simp [List.append_assoc]
      · simp only [Function.comp_apply]
        rw [if_neg hbc]
        simp only [List.map_cons, List.filter_cons, tagItem_category]
        rw [if_neg (by simp; exact fun h => hbc h.symm)]

/-- `categorize_items` yields the tagged item sequence and, bucket by
bucket in taxonomy order, the tagged items of that category in sequence
order (a stable partition, not a re-sort). -/
theorem categorize_items_eq (items : List Item) :
    categorize_items items =
      (items.map tagItem,
       CATEGORY_NAMES.map fun c =>
         (c, (items.map tagItem).filter fun i => i.category == some c)) := by
  rw [categorize_items, foldl_catStep]
  rw [Prod.ext_iff]
  constructor
  · simp
  · dsimp only
    rw [emptyBuckets, List.map_map]
    apply List.map_congr_left
    intro c _
    simp

/-- **C5** — `merge_feeds` pipeline shape: the reported total/news/social
counts equal the input list lengths; the "recent" list is exactly the
first 20 items of the stable descending-by-instant sort of
normalized-news-then-normalized-social (carrying the in-place category
tags the categorizer writes before the slice is taken); ties in that
sort keep the concatenation order, i.e. news before social; and each
per-category bucket is the filter of the same global sort on that
category — no per-category re-sort — truncated to its first 10 items and
formatted. -/
theorem c5_merge_feeds (env : DateEnv) (news_items tweets : List Item) :
    (merge_feeds env news_items tweets).total_items =
      news_items.length + tweets.length ∧
    (merge_feeds env news_items tweets).news_count = news_items.length ∧
    (merge_feeds env news_items tweets).tweets_count = tweets.length ∧
    (merge_feeds env news_items tweets).recent_items =
      (taggedSorted env news_items tweets).take 20 ∧
    (∀ k, (globalSorted env news_items tweets).filter (fun y => sortKey y == k) =
        (normalizedConcat env news_items tweets).filter (fun y => sortKey y == k)) ∧
    (merge_feeds env news_items tweets).categories =
      CATEGORY_NAMES.map fun c =>
        (c, (bucketOf env news_items tweets c).length,
          format_items ((bucketOf env news_items tweets c).take 10)) := by
  refine ⟨?_, ?_, ?_, ?_, ?_, ?_⟩
  · show (sort_by_date (normalizedConcat env news_items tweets) true).length = _
    rw [show sort_by_date (normalizedConcat env news_items tweets) true =
        sortStable (fun a b => sortKey a > sortKey b)
          (normalizedConcat env news_items tweets) from rfl,
      (sortStable_perm _ _).length_eq, normalizedConcat, List.length_append]
    simp
  · show (news_items.map (normalize_item env)).length = _
    simp
  · show (tweets.map (normalize_item env)).length = _
    simp
  · show ((categorize_items (globalSorted env news_items tweets)).1).take 20 = _
    rw [categorize_items_eq]
    rfl
  · intro k
    exact sort_filter_stable k (normalizedConcat env news_items tweets)
  · show ((categorize_items (globalSorted env news_items tweets)).2).map
        (fun b => (b.1, b.2.length, format_items (b.2.take 10))) = _
    rw [categorize_items_eq, List.map_map]
    apply List.map_congr_left
    intro c _
    rfl

/-! ## C1 — payment state machine -/

/-- **C1** — Per-request payment state machine, for every request to a
paid endpoint: with no `X-Payment-Hash` header the gate answers 402, the
wrapped handler never runs and the transaction table is untouched; with a
hash that fails verification the gate answers 402, the handler never runs
and the table is untouched; with a hash that verifies and a handler
answering 200 the gate makes exactly one settle call; if the handler does
not answer 200 no settle call is made and the persisted transaction stays
verified-but-unsettled; and if settle fails the transaction likewise
stays verified-but-unsettled after the single settle attempt — no
retry. -/
theorem c1_payment_state_machine (env : PaymentEnv) (db : List Txn)
    (path : String) (h : String) (hp : isPaidEndpoint path = true) :
    (dispatch env db path none =
      { status := 402, handlerInvoked := false, settleCalls := 0, db := db }) ∧
    (hashTruthy (some h) = true → env.verifyOk = false →
      dispatch env db path (some h) =
        { status := 402, handlerInvoked := false, settleCalls := 0, db := db }) ∧
    (hashTruthy (some h) = true → env.verifyOk = true → env.handlerStatus = 200 →
      (dispatch env db path (some h)).settleCalls = 1 ∧
      (dispatch env db path (some h)).handlerInvoked = true) ∧
    (hashTruthy (some h) = true → env.verifyOk = true → env.handlerStatus ≠ 200 →
      (dispatch env db path (some h)).settleCalls = 0 ∧
      (dispatch env db path (some h)).handlerInvoked = true ∧
      (dispatch env db path (some h)).db =
        db ++ [{ payment_hash := h, endpoint := path,
                 verified := true, settled := false }]) ∧
    (hashTruthy (some h) = true → env.verifyOk = true → env.handlerStatus = 200 →
      env.settleOk = false →
      (dispatch env db path (some h)).settleCalls = 1 ∧
      (dispatch env db path (some h)).db =
        db ++ [{ payment_hash := h, endpoint := path,
                 verified := true, settled := false }]) := by
  refine ⟨?_, ?_, ?_, ?_, ?_⟩
  · simp [dispatch, hp, hashTruthy]
  · intro ht hv
    simp [dispatch, hp, ht, hv]
  · intro ht hv hs
    by_cases hso : env.settleOk = true <;>
      simp [dispatch, hp, ht, hv, hs, hso]
  · intro ht hv hs
    by_cases hso : env.settleOk = true <;>
      simp [dispatch, hp, ht, hv, hs, hso]
  · intro ht hv hs hso
    simp [dispatch, hp, ht, hv, hs, hso]

/-- Witness for C1 at a concrete paid path, hash and environment. -/
theorem c1_witness :
    dispatch payEnvW [] "/markets/trends" none =
      { status := 402, handlerInvoked := false, settleCalls := 0, db := [] } ∧
    (dispatch payEnvW [] "/markets/trends" (some "hash1")).settleCalls = 1 ∧
    (dispatch payEnvW [] "/markets/trends" (some "hash1")).db =
      [{ payment_hash := "hash1", endpoint := "/markets/trends",
         verified := true, settled := false }] :=
  ⟨(c1_payment_state_machine payEnvW [] "/markets/trends" "hash1" (by decide)).1,
   ((c1_payment_state_machine payEnvW [] "/markets/trends" "hash1"
      (by decide)).2.2.2.2 (by decide) rfl rfl rfl).1,
   ((c1_payment_state_machine payEnvW [] "/markets/trends" "hash1"
      (by decide)).2.2.2.2 (by decide) rfl rfl rfl).2⟩

/-! ## C8 — cache round trip -/

/-- **C8** — Cache round-trip: on a connected client with a positive
effective TTL, `set k v` immediately followed by `get k` returns exactly
`v`; a `get` at or past the entry's expiry instant returns absent; a
`set` without an explicit TTL stores the entry with the configured
default TTL; and the `set` reports success. -/
theorem c8_cache_round_trip (st : CacheState) (now : Nat) (key : String)
    (v : JVal) (ttl : Option Nat) (hc : st.connected = true)
    (hd : 0 < st.defaultTTL) :
    RedisClient.get (RedisClient.set st now key v ttl).1 now key = some v ∧
    (∀ t, now + RedisClient.expireTime st ttl ≤ t →
      RedisClient.get (RedisClient.set st now key v ttl).1 t key = none) ∧
    (ttl = none → (RedisClient.set st now key v ttl).1.store key =
      some (v, now + st.defaultTTL)) ∧
    (RedisClient.set st now key v ttl).2 = true := by
  have heff : 0 < RedisClient.expireTime st ttl := by
    cases ttl with
    | none => exact hd
    | some t =>
      by_cases ht : t = 0
      · simpa [RedisClient.expireTime, ht] using hd
      · simpa [RedisClient.expireTime, ht] using Nat.pos_of_ne_zero ht
  have hne : ¬ RedisClient.expireTime st ttl = 0 := by omega
  have hset : RedisClient.set st now key v ttl =
      ({ st with store := fun k =>
          if k = key then some (v, now + RedisClient.expireTime st ttl) else st.store k },
       true) := by
    rw [RedisClient.set, if_neg (by simp [hc]), if_neg hne]
  refine ⟨?_, ?_, ?_, ?_⟩
  · rw [hset]
    simp [RedisClient.get, hc]
    omega
  · intro t hT
    rw [hset]
    simp [RedisClient.get, hc]
    omega
  · intro hnone
    rw [hset]
    simp [RedisClient.expireTime, hnone]
  · rw [hset]

/-- Witness for C8 at a concrete key, value and state. -/
theorem c8_witness :
    RedisClient.get
      (RedisClient.set cacheStateW 0 "markets:trends" (JVal.str "payload") none).1
      0 "markets:trends" = some (JVal.str "payload") ∧
    RedisClient.get
      (RedisClient.set cacheStateW 0 "markets:trends" (JVal.str "payload") none).1
      3600 "markets:trends" = none :=
  ⟨(c8_cache_round_trip cacheStateW 0 "markets:trends" (JVal.str "payload") none
      rfl (by decide)).1,
   (c8_cache_round_trip cacheStateW 0 "markets:trends" (JVal.str "payload") none
      rfl (by decide)).2.1 3600 (by decide)⟩

/-! ## C9 — signal write idempotence -/

/-- The id-count is additive across append. -/
theorem countGiven_append (a b : List SigRecord) (s : String) :
    countGiven (a ++ b) s = countGiven a s + countGiven b s := by
  simp [countGiven, List.filter_append]

/-- The id-count of a cons. -/
theorem countGiven_cons (r : SigRecord) (rs : List SigRecord) (s : String) :
    countGiven (r :: rs) s =
      countGiven rs s + (if (r.rid == SigId.given s) = true then 1 else 0) := by
  simp only [countGiven, List.filter_cons]
  split <;> simp [*]

/-- A failed id lookup means no row carries that id. -/
theorem findById_none_count (db : List SigRecord) (s : String)
    (h : findById db (some s) = none) : countGiven db s = 0 := by
  have h' := List.find?_eq_none.mp h
  rw [countGiven, List.length_eq_zero, List.filter_eq_nil_iff]
  exact h'

/-- A row appended under a given id is found by the next lookup. -/
theorem findById_append_self (db : List SigRecord) (s : String) (it : SigItem) :
    ∃ r, findById (db ++ [⟨SigId.given s, it⟩]) (some s) = some r := by
  induction db with
  | nil => exact ⟨⟨SigId.given s, it⟩, by simp [findById, List.find?]⟩
  | cons d ds ih =>
    by_cases hd : (d.rid == SigId.given s) = true
    · exact ⟨d, by simp [findById, List.find?, hd]⟩
    · obtain ⟨r, hr⟩ := ih
      refine ⟨r, ?_⟩
      simp only [findById, List.cons_append, List.find?] at hr ⊢
      rw [Bool.of_not_eq_true hd] at *
      exact hr

/-- Every row the loop stages under a given id was absent from the
pre-batch table: staging it required the lookup there to fail. -/
theorem staged_given_fresh (db : List SigRecord) (items : List SigItem) :
    ∀ acc : List SigRecord × Nat,
      (∀ r ∈ acc.1, ∀ s, r.rid = SigId.given s → findById db (some s) = none) →
      ∀ r ∈ (items.foldl (stageSignalItem db) acc).1, ∀ s,
        r.rid = SigId.given s → findById db (some s) = none := by
  induction items with
  | nil =>
    intro acc hacc
    exact hacc
  | cons item rest ih =>
    intro acc hacc
    rw [List.foldl_cons]
    apply ih
    intro r hr s hrid
    cases hfind : findById db item.id with
    | some x =>
      rw [stageSignalItem, hfind] at hr
      exact hacc r hr s hrid
    | none =>
      cases hid : item.id with
      | some s' =>
        rw [stageSignalItem, hfind, hid] at hr
        rcases List.mem_append.mp hr with hmem | hmem
        · exact hacc r hmem s hrid
        · have hr' : r = ⟨SigId.given s', item⟩ := List.mem_singleton.mp hmem
          rw [hr'] at hrid
          have hss : s' = s := by
            simpa using hrid
          rw [hid] at hfind
          rw [← hss]
          exact hfind
      | none =>
        rw [stageSignalItem, hfind, hid] at hr
        rcases List.mem_append.mp hr with hmem | hmem
        · exact hacc r hmem s hrid
        · have hr' : r = ⟨SigId.generated acc.2, item⟩ := List.mem_singleton.mp hmem
          rw [hr'] at hrid
          simp at hrid

/-- A pending list without key duplicates holds at most one row per
given id. -/
theorem countGiven_nodup (pending : List SigRecord) (s : String)
    (h : hasDupKey pending = false) : countGiven pending s ≤ 1 := by
  induction pending with
  | nil => simp [countGiven]
  | cons r rs ih =>
    rw [hasDupKey, Bool.or_eq_false_iff] at h
    obtain ⟨hany, hrs⟩ := h
    rw [countGiven_cons]
    by_cases hr : (r.rid == SigId.given s) = true
    · have hr' : r.rid = SigId.given s := by simpa using hr
      have h0 : countGiven rs s = 0 := by
        rw [countGiven, List.length_eq_zero, List.filter_eq_nil_iff]
        intro x hx hpx
        have hx' : (x.rid == r.rid) = false := by
          have := List.any_eq_false.mp hany x hx
          simpa using this
        have : x.rid = SigId.given s := by simpa using hpx
        rw [this, hr'] at hx'
        simp at hx'
      rw [h0, hr]
      simp
    · simp only [hr, if_false]
      simpa using ih hrs

/-- **C9 counterexample** — the claim fails on the code: an item carrying
no id (whose spec-side natural key `url+source` is identical on both
deliveries) is *not* looked up by `url+source` — the lookup compares only
the id column, which matches nothing for an id-less item — so persisting
it twice yields two durable records, not one. -/
theorem c9_counterexample :
    sigNoId.id = none ∧
    (save_signal_items
      (save_signal_items [] 0 [sigNoId]).1
      (save_signal_items [] 0 [sigNoId]).2
      [sigNoId]).1.length = 2 :=
  ⟨rfl, by decide⟩

/-- **C9 (amended)** — Signal-write idempotence holds only for items
bearing a stable id, and the duplicate check sees only rows committed
before the batch (the session has `autoflush=False`): a write whose id
already exists in the table is skipped; a batch that stages the same id
twice fails the commit's primary-key check and is rolled back whole,
saving nothing. Either way, a table holding at most one row under an id
still holds at most one row under it after any batch, for every
interleaving of redeliveries, and persisting an item with id `s` twice in
successive batches leaves the table exactly as after the first write.
Items without an id have no natural key in the code: they are inserted
unconditionally under a fresh generated primary key (there is no
`url+source` fallback), so their redelivery duplicates them. -/
theorem c9_signal_write_idempotent (db : List SigRecord) (fresh : Nat)
    (items : List SigItem) (s : String) :
    (countGiven db s ≤ 1 →
      countGiven (save_signal_items db fresh items).1 s ≤ 1) ∧
    (∀ item : SigItem, item.id = some s →
      (save_signal_items (save_signal_items db fresh [item]).1
        (save_signal_items db fresh [item]).2 [item]).1 =
      (save_signal_items db fresh [item]).1) ∧
    (∀ item : SigItem, item.id = some s → findById db (some s) = none →
      save_signal_items db fresh [item, item] = (db, fresh)) := by
  refine ⟨?_, ?_, ?_⟩
  · intro h
    rw [save_signal_items]
    by_cases hdup :
        hasDupKey (items.foldl (stageSignalItem db) ([], fresh)).1 = true
    · simp only [hdup, if_true]
      exact h
    · rw [if_neg hdup]
      rw [countGiven_append]
      have hfresh := staged_given_fresh db items ([], fresh) (by simp)
      have hle : countGiven (items.foldl (stageSignalItem db) ([], fresh)).1 s ≤ 1 :=
        countGiven_nodup _ s (Bool.of_not_eq_true hdup)
      by_cases hcnt :
          countGiven (items.foldl (stageSignalItem db) ([], fresh)).1 s = 0
      · rw [hcnt]
        omega
      · have hpos : 0 <
            countGiven (items.foldl (stageSignalItem db) ([], fresh)).1 s :=
          Nat.pos_of_ne_zero hcnt
        rw [countGiven, List.length_pos] at hpos
        obtain ⟨r, hrmem⟩ := List.exists_mem_of_ne_nil _ hpos
        obtain ⟨hrstaged, hrpred⟩ := List.mem_filter.mp hrmem
        have hrid : r.rid = SigId.given s := by simpa using hrpred
        have hnone : findById db (some s) = none := hfresh r hrstaged s hrid
        have h0 : countGiven db s = 0 := findById_none_count db s hnone
        omega
  · intro item hid
    cases hfind : findById db item.id with
    | some r =>
      have h1 : save_signal_items db fresh [item] = (db ++ [], fresh) := by
        simp [save_signal_items, stageSignalItem, hfind, hasDupKey]
      rw [h1]
      rw [List.append_nil]
      simp [save_signal_items, stageSignalItem, hfind, hasDupKey]
    | none =>
      rw [hid] at hfind
      have h1 : save_signal_items db fresh [item] =
          (db ++ [⟨SigId.given s, item⟩], fresh) := by
        simp [save_signal_items, stageSignalItem, hid, hfind, hasDupKey]
      rw [h1]
      obtain ⟨r, hr⟩ := findById_append_self db s item
      simp [save_signal_items, stageSignalItem, hid, hr, hasDupKey]
  · intro item hid hfind
    rw [save_signal_items]
    have h1 : [item, item].foldl (stageSignalItem db) ([], fresh) =
        ([⟨SigId.given s, item⟩, ⟨SigId.given s, item⟩], fresh) := by
      simp [stageSignalItem, hid, hfind]
    rw [h1]
    simp [hasDupKey]

/-- Witness for C9 (amended) at concrete inputs: a duplicate-id batch
from an empty table keeps the at-most-one bound (the commit rolls back
and saves nothing), a second identical single-item batch changes nothing,
and the duplicate-id batch itself is rolled back whole. -/
theorem c9_witness :
    countGiven (save_signal_items [] 0 [sigWithId, sigWithId]).1 "abc123" ≤ 1 ∧
    (save_signal_items (save_signal_items [] 0 [sigWithId]).1
        (save_signal_items [] 0 [sigWithId]).2 [sigWithId]).1 =
      (save_signal_items [] 0 [sigWithId]).1 ∧
    save_signal_items [] 0 [sigWithId, sigWithId] = ([], 0) :=
  ⟨(c9_signal_write_idempotent [] 0 [sigWithId, sigWithId] "abc123").1 (by decide),
   (c9_signal_write_idempotent [] 0 [sigWithId] "abc123").2.1 sigWithId rfl,
   (c9_signal_write_idempotent [] 0 [sigWithId] "abc123").2.2 sigWithId rfl rfl⟩

/-! ## C10 — category snapshot 1-hour merge window -/

/-- With no snapshot of the category present, the most-recent lookup
finds nothing. -/
theorem bestIdx_none (c : String) (db : List FeedRow)
    (h : ∀ r ∈ db, ¬ r.category = c) : bestIdx c db = none := by
  induction db with
  | nil => rfl
  | cons d ds ih =>
    have hd : (d.category == c) = false := by
      simp [h d (List.mem_cons_self d ds)]
    have hds := ih fun r hr => h r (List.mem_cons_of_mem d hr)
    simp [bestIdx, hd, hds]

/-- A snapshot appended to a table holding no snapshot of the category is
the one the most-recent lookup finds, at the last index. -/
theorem bestIdx_append_new (c : String) (db : List FeedRow) (r : FeedRow)
    (hc : (r.category == c) = true) (h : ∀ x ∈ db, ¬ x.category = c) :
    bestIdx c (db ++ [r]) = some (db.length, r) := by
  induction db with
  | nil => simp [bestIdx, hc]
  | cons d ds ih =>
    have hd : (d.category == c) = false := by
      simp [h d (List.mem_cons_self d ds)]
    have hds := ih fun x hx => h x (List.mem_cons_of_mem d hx)
    simp [bestIdx, hd, hds]

/-- Setting the last position of an appended row replaces that row. -/
theorem set_append_last (db : List FeedRow) (r x : FeedRow) :
    (db ++ [r]).set db.length x = db ++ [x] := by
  induction db with
  | nil => rfl
  | cons d ds ih =>
    simp [List.set, ih]

/-- **C10** — Category snapshot 1-hour merge window: a snapshot write
finds the most recent existing snapshot for the category; when it exists
and is under an hour old the write overwrites that row's item list, count
and update time in place, otherwise it appends a new snapshot row; hence
two writes for the same category within 10 minutes, starting from a table
with no snapshot of that category, leave exactly one row for the
category, holding the latest item list. -/
theorem c10_snapshot_merge_window (db : List FeedRow) (now : Nat) (c : String)
    (items : List SigItem) :
    (bestIdx c db = none →
      save_category_feed db now c items = db ++ [mkFeedRow c items now]) ∧
    (∀ i r, bestIdx c db = some (i, r) → now - r.last_updated < 3600 →
      save_category_feed db now c items = db.set i (mkFeedRow c items now)) ∧
    (∀ i r, bestIdx c db = some (i, r) → ¬ now - r.last_updated < 3600 →
      save_category_feed db now c items = db ++ [mkFeedRow c items now]) ∧
    (∀ t0 t1 items1, (∀ x ∈ db, ¬ x.category = c) → t1 - t0 < 3600 →
      (save_category_feed (save_category_feed db t0 c items1) t1 c items).length =
        db.length + 1 ∧
      (save_category_feed (save_category_feed db t0 c items1) t1 c items).filter
          (fun row => row.category == c) = [mkFeedRow c items t1]) := by
  refine ⟨?_, ?_, ?_, ?_⟩
  · intro h
    simp [save_category_feed, h]
  · intro i r h hlt
    simp [save_category_feed, h, hlt]
  · intro i r h hlt
    simp [save_category_feed, h, hlt]
  · intro t0 t1 items1 hno hlt
    have h0 : bestIdx c db = none := bestIdx_none c db hno
    have hdb1 : save_category_feed db t0 c items1 =
        db ++ [mkFeedRow c items1 t0] := by
      simp [save_category_feed, h0]
    rw [hdb1]
    have hb1 : bestIdx c (db ++ [mkFeedRow c items1 t0]) =
        some (db.length, mkFeedRow c items1 t0) :=
      bestIdx_append_new c db _ (by simp [mkFeedRow]) hno
    have hlt' : t1 - (mkFeedRow c items1 t0).last_updated < 3600 := by
      simpa [mkFeedRow] using hlt
    have hdb2 : save_category_feed (db ++ [mkFeedRow c items1 t0]) t1 c items =
        (db ++ [mkFeedRow c items1 t0]).set db.length (mkFeedRow c items t1) := by
      simp [save_category_feed, hb1, hlt']
    rw [hdb2, set_append_last]
    constructor
    · simp
    · rw [List.filter_append]
      have hnil : db.filter (fun row => row.category == c) = [] := by
        rw [List.filter_eq_nil_iff]
        intro x hx
        simp [hno x hx]
      simp [hnil, mkFeedRow]

/-- Witness for C10: two writes for `"trends"` ten minutes apart starting
from an empty table leave one row with the latest item list. -/
theorem c10_witness :
    (save_category_feed (save_category_feed [] 0 "trends" []) 600 "trends"
        [sigNoId]).length = 1 ∧
    (save_category_feed (save_category_feed [] 0 "trends" []) 600 "trends"
        [sigNoId]).filter (fun row => row.category == "trends") =
      [mkFeedRow "trends" [sigNoId] 600] :=
  ⟨by
    have h := ((c10_snapshot_merge_window [] 600 "trends" [sigNoId]).2.2.2
      0 600 [] (by simp) (by decide)).1
    simpa using h,
   ((c10_snapshot_merge_window [] 600 "trends" [sigNoId]).2.2.2
      0 600 [] (by simp) (by decide)).2⟩
